import Mathlib

/-!
Verification of the flake8 execution core (checker.py and style_guide.py)
against its natural-language design specification.

The Python sources are shallowly embedded below: every definition mirrors
one function or method of the source, translated statement by statement.
Python tuples become Lean structures or products, Python exceptions become
`Except` or `Option` results, machine-independent Python integers become
`Int` or `Nat`, and Python strings become Lean `String` (compared, like
Python does, lexicographically by Unicode code point).
-/

/-! ### Python string comparison

Python compares strings lexicographically by code point.  `charListLt`
is exactly that comparison on the underlying character lists; `strLtB`
lifts it to `String`.
-/

def charListLt : List Char → List Char → Bool
  | [], [] => false
  | [], _ :: _ => true
  | _ :: _, [] => false
  | a :: as, b :: bs => if a < b then true else if b < a then false else charListLt as bs

def strLtB (a b : String) : Bool :=
  charListLt a.data b.data

/-- Python `code.startswith(prefix)` on character lists. -/
def startsWithCL : List Char → List Char → Bool
  | _, [] => true
  | [], _ :: _ => false
  | c :: cs, p :: ps => decide (c = p) && startsWithCL cs ps

/-- Python `code.startswith(prefix)` for a single prefix string. -/
def pyStartsWith (s pre : String) : Bool :=
  startsWithCL s.data pre.data

/-! ### Stable insertion sort

Python `sorted` is a stable sort; for the list sizes handled here a
stable insertion sort is an exact model: an element is inserted behind
every earlier element whose key is strictly smaller, and in front of the
first element whose key is not strictly smaller, so elements with equal
keys keep their original relative order.
-/

def insertSorted (lt : α → α → Bool) (x : α) : List α → List α
  | [] => [x]
  | y :: ys => if lt y x then y :: insertSorted lt x ys else x :: y :: ys

def insSortBy (lt : α → α → Bool) : List α → List α
  | [] => []
  | x :: xs => insertSorted lt x (insSortBy lt xs)

/-! ### Basic order facts about `charListLt` -/

theorem charListLt_irrefl : ∀ l : List Char, charListLt l l = false := by
  intro l
  induction l with
  | nil => rfl
  | cons a as ih => simp [charListLt, ih]

theorem charListLt_cons (x y : Char) (as bs : List Char) :
    charListLt (x :: as) (y :: bs) =
      if x < y then true else if y < x then false else charListLt as bs :=
  rfl

theorem charListLt_trans : ∀ a b c : List Char,
    charListLt a b = true → charListLt b c = true → charListLt a c = true := by
  intro a
  induction a with
  | nil =>
    intro b c hab hbc
    cases b with
    | nil => simp [charListLt] at hab
    | cons y bs =>
      cases c with
      | nil => simp [charListLt] at hbc
      | cons z cs => simp [charListLt]
  | cons x as ih =>
    intro b c hab hbc
    cases b with
    | nil => simp [charListLt] at hab
    | cons y bs =>
      cases c with
      | nil => simp [charListLt] at hbc
      | cons z cs =>
        rw [charListLt_cons] at hab hbc ⊢
        rcases lt_trichotomy x y with hxy | hxy | hxy
        · rcases lt_trichotomy y z with hyz | hyz | hyz
          · rw [if_pos (lt_trans hxy hyz)]
          · subst hyz
            rw [if_pos hxy]
          · rw [if_neg (asymm hyz), if_pos hyz] at hbc
            exact absurd hbc (by simp)
        · subst hxy
          rw [if_neg (lt_irrefl x), if_neg (lt_irrefl x)] at hab
          rcases lt_trichotomy x z with hxz | hxz | hxz
          · rw [if_pos hxz]
          · subst hxz
            rw [if_neg (lt_irrefl x), if_neg (lt_irrefl x)] at hbc ⊢
            exact ih bs cs hab hbc
          · rw [if_neg (asymm hxz), if_pos hxz] at hbc
            exact absurd hbc (by simp)
        · rw [if_neg (asymm hxy), if_pos hxy] at hab
          exact absurd hab (by simp)

theorem charListLt_total_eq : ∀ a b : List Char,
    charListLt a b = false → charListLt b a = false → a = b := by
  intro a
  induction a with
  | nil =>
    intro b hab _
    cases b with
    | nil => rfl
    | cons y bs => simp [charListLt] at hab
  | cons x as ih =>
    intro b hab hba
    cases b with
    | nil => simp [charListLt] at hba
    | cons y bs =>
      rw [charListLt_cons] at hab hba
      rcases lt_trichotomy x y with hxy | hxy | hxy
      · rw [if_pos hxy] at hab
        exact absurd hab (by simp)
      · subst hxy
        rw [if_neg (lt_irrefl x), if_neg (lt_irrefl x)] at hab hba
        rw [ih bs hab hba]
      · rw [if_pos hxy] at hba
        exact absurd hba (by simp)

theorem strLtB_irrefl (a : String) : strLtB a a = false :=
  charListLt_irrefl a.data

theorem strLtB_total_eq {a b : String} (hab : strLtB a b = false)
    (hba : strLtB b a = false) : a = b := by
  have h := charListLt_total_eq a.data b.data hab hba
  cases a with
  | mk da => cases b with
    | mk db => exact congrArg String.mk h

/-! ### Head of the insertion sort is a least element -/

theorem insertSorted_ne_nil (lt : α → α → Bool) (x : α) (l : List α) :
    insertSorted lt x l ≠ [] := by
  cases l with
  | nil => simp [insertSorted]
  | cons y ys =>
    simp only [insertSorted]
    by_cases h : lt y x = true
    · simp [h]
    · simp [h]

theorem insSortBy_eq_nil (lt : α → α → Bool) (l : List α) :
    insSortBy lt l = [] → l = [] := by
  cases l with
  | nil => intro; rfl
  | cons x xs =>
    intro h
    exact absurd h (insertSorted_ne_nil lt x (insSortBy lt xs))

/-- The head of `insSortBy strLtB l` is a member of `l` that no member of
`l` is strictly below. -/
theorem head_insSortStr_least : ∀ (l : List String) (m : String),
    (insSortBy strLtB l).head? = some m →
    m ∈ l ∧ ∀ x ∈ l, strLtB x m = false := by
  intro l
  induction l with
  | nil => intro m h; simp [insSortBy] at h
  | cons a l ih =>
    intro m h
    simp only [insSortBy] at h
    cases hs : (insSortBy strLtB l).head? with
    | none =>
      have hnil : insSortBy strLtB l = [] := by
        cases hl : insSortBy strLtB l with
        | nil => rfl
        | cons b t => rw [hl] at hs; simp at hs
      have hlnil : l = [] := insSortBy_eq_nil strLtB l hnil
      subst hlnil
      rw [hnil] at h
      simp only [insertSorted, List.head?] at h
      have hma : a = m := by injection h
      subst hma
      refine ⟨List.mem_singleton.mpr rfl, ?_⟩
      intro x hx
      rw [List.mem_singleton] at hx
      subst hx
      exact strLtB_irrefl _
    | some b =>
      have ⟨hbmem, hbleast⟩ := ih b hs
      obtain ⟨t, ht⟩ : ∃ t, insSortBy strLtB l = b :: t := by
        cases hl : insSortBy strLtB l with
        | nil => rw [hl] at hs; simp at hs
        | cons c t =>
          rw [hl] at hs
          simp only [List.head?] at hs
          injection hs with hs
          exact ⟨t, by rw [hs]⟩
      rw [ht] at h
      simp only [insertSorted] at h
      by_cases hba : strLtB b a = true
      · rw [if_pos hba] at h
        simp only [List.head?] at h
        have hbm : b = m := by injection h
        subst hbm
        refine ⟨List.mem_cons_of_mem a hbmem, ?_⟩
        intro x hx
        rcases List.mem_cons.mp hx with hxa | hxl
        · rw [hxa]
          cases hax : strLtB a b with
          | false => rfl
          | true =>
            have : strLtB b b = true := charListLt_trans _ _ _ hba hax
            rw [strLtB_irrefl] at this
            exact absurd this (by simp)
        · exact hbleast x hxl
      · rw [if_neg hba] at h
        simp only [List.head?] at h
        have ham : a = m := by injection h
        subst ham
        refine ⟨List.mem_cons_self a l, ?_⟩
        intro x hx
        rcases List.mem_cons.mp hx with hxa | hxl
        · rw [hxa]
          exact strLtB_irrefl _
        · cases hax : strLtB x a with
          | false => rfl
          | true =>
            have hxb : strLtB x b = false := hbleast x hxl
            have hbx : strLtB b x = false ∨ strLtB b x = true := by
              cases strLtB b x <;> simp
            rcases hbx with hbx | hbx
            · have hxe : x = b := strLtB_total_eq hxb hbx
              subst hxe
              rw [hax] at hba
              exact absurd rfl hba
            · have : strLtB b a = true := charListLt_trans _ _ _ hbx hax
              rw [Bool.not_eq_true] at hba
              rw [this] at hba
              exact absurd hba (by simp)

theorem insSortStr_head_eq_min (l : List String) (s : String) (hmem : s ∈ l)
    (hmin : ∀ x ∈ l, strLtB x s = false) :
    (insSortBy strLtB l).head? = some s := by
  cases hh : (insSortBy strLtB l).head? with
  | none =>
    have hnil : insSortBy strLtB l = [] := by
      cases hl : insSortBy strLtB l with
      | nil => rfl
      | cons c t => rw [hl] at hh; simp at hh
    have := insSortBy_eq_nil strLtB l hnil
    subst this
    simp at hmem
  | some m =>
    have ⟨hmmem, hmleast⟩ := head_insSortStr_least l m hh
    have h1 : strLtB m s = false := hmin m hmmem
    have h2 : strLtB s m = false := hmleast s hmem
    rw [strLtB_total_eq h2 h1]

/-! ### checker.py data model

A `FileChecker.results` entry is the Python tuple
`(error_code, line_number, column, text, physical_line)` built by
`FileChecker.report` (checker.py line 357).  The structure fields are in
the exact tuple order, so `tup[1]` is `line_number`, `tup[2]` is
`column`, `tup[3]` is `text`.
-/

structure CheckResult where
  error_code : String
  line_number : Int
  column : Int
  text : String
  physical_line : String
deriving DecidableEq, Repr

/-- One enumerated `FileChecker` as `Manager._report_after_serial` sees
it: its filename and its accumulated raw results. -/
structure CheckerData where
  filename : String
  results : List CheckResult
deriving DecidableEq, Repr

/-- The `Error` namedtuple of style_guide.py (fields in source order).
`physical_line` is `Option` because the namedtuple admits `None`. -/
structure Error where
  code : String
  filename : String
  line_number : Int
  column_number : Int
  text : String
  physical_line : Option String
deriving DecidableEq, Repr

/-- The sort key of `Manager._report_after_serial` (checker.py line 181):
`key=lambda tup: (tup[2], tup[3])`, i.e. the pair (column, text),
compared as a Python tuple: first components with `<` on int, ties by
`<` on str. -/
def serialKeyLt (a b : CheckResult) : Bool :=
  decide (a.column < b.column) ||
    (decide (a.column = b.column) && strLtB a.text b.text)

/-- The sort key of `Manager._report_after_parallel` (checker.py line
167): `key=lambda tup: (tup[1], tup[2])`, i.e. (line_number, column). -/
def parallelKeyLt (a b : CheckResult) : Bool :=
  decide (a.line_number < b.line_number) ||
    (decide (a.line_number = b.line_number) && decide (a.column < b.column))

/-- The `Error` handed to `StyleGuide.handle_error` by the two report
loops: both pass `filename` plus the tuple fields. -/
def toError (filename : String) (t : CheckResult) : Error :=
  ⟨t.error_code, filename, t.line_number, t.column, t.text, some t.physical_line⟩

/-- `Manager._report_after_serial` (checker.py lines 178-191): for each
checker, in enumeration order, sort its results with the serial key and
forward each to `style_guide.handle_error`.  The returned list is the
sequence of forwarded errors in call order. -/
def report_after_serial (checkers : List CheckerData) : List Error :=
  checkers.flatMap fun c =>
    (insSortBy serialKeyLt c.results).map (toError c.filename)

/-- Python `dict` built by `_report_after_parallel` from the received
`(filename, results)` pairs: the last write for a filename wins. -/
def finalResultsGet (pairs : List (String × List CheckResult))
    (filename : String) : List CheckResult :=
  match pairs.reverse.find? (fun p => p.1 == filename) with
  | some p => p.2
  | none => []

/-- `Manager._report_after_parallel` (checker.py lines 158-176) after
result collection: iterate the checkers in original enumeration order,
look each filename up in the collected mapping (default `[]`), sort by
`(tup[1], tup[2])` and forward to `style_guide.handle_error`. -/
def report_after_parallel (checkers : List CheckerData)
    (received : List (String × List CheckResult)) : List Error :=
  checkers.flatMap fun c =>
    (insSortBy parallelKeyLt (finalResultsGet received c.filename)).map
      (toError c.filename)

/-- Whether a list of forwarded errors is non-decreasing in
`(line_number, column_number)`. -/
def sortedByLineCol : List Error → Bool
  | [] => true
  | [_] => true
  | a :: b :: t =>
    (decide (a.line_number < b.line_number) ||
      (decide (a.line_number = b.line_number) &&
        decide (a.column_number ≤ b.column_number))) &&
    sortedByLineCol (b :: t)

/-! ### The parallel collection protocol

`Manager.run_parallel` (checker.py lines 249-267) spawns `jobs - 1`
worker processes plus one reporter process.  Each worker
(`_run_checks_from_queue`, lines 193-198) pushes one `(filename,
results)` pair per checker to the results queue and exactly one
sentinel string `DONE` when its work queue is exhausted.
`Manager._results` (lines 145-156) pulls from the results queue and
stops only once it has seen `jobs` sentinels.

`resultsLoop` replays `_results` on a finite queue trace: the returned
Bool is `true` when the loop terminated through its `break` and `false`
when the trace was exhausted with the loop still waiting (in the real
program a blocking `Queue.get` that never returns). -/

inductive QMsg where
  | done : QMsg
  | result : String → List CheckResult → QMsg
deriving DecidableEq, Repr

def resultsLoop (jobs : Nat) : Nat → List QMsg → List (String × List CheckResult) × Bool
  | _, [] => ([], false)
  | seen_done, QMsg.done :: rest =>
    if jobs ≤ seen_done + 1 then ([], true)
    else resultsLoop jobs (seen_done + 1) rest
  | seen_done, QMsg.result filename results :: rest =>
    let p := resultsLoop jobs seen_done rest
    ((filename, results) :: p.1, p.2)

/-- The results-queue messages produced by one worker process running
`_run_checks_from_queue` over its share of the checkers: one `result`
message per checker (pushed by `FileChecker.run_checks`), then exactly
one `DONE` sentinel. -/
def workerTrace (assigned : List CheckerData) : List QMsg :=
  assigned.map (fun c => QMsg.result c.filename c.results) ++ [QMsg.done]

/-- Number of sentinels in a queue trace. -/
def countDones : List QMsg → Nat
  | [] => 0
  | QMsg.done :: rest => countDones rest + 1
  | QMsg.result _ _ :: rest => countDones rest

/-- Number of worker processes spawned by `Manager.run_parallel`
(checker.py line 257): `range(self.jobs - 1)`. -/
def numWorkers (jobs : Nat) : Nat := jobs - 1

/-! ### FileChecker construction (checker.py lines 319-359)

`FileChecker.__init__` sets `self.results = []` and then
`self.processor = self._make_processor()`; while `_make_processor` is
still running, the instance has no `processor` attribute yet.
`_make_processor` opens the file; on `IOError` it calls
`self.report('E902', 0, 0, message)`, and `FileChecker.report`
evaluates `self.processor.line_for(line_number)` — an attribute access
on the not-yet-assigned `processor`.  `PyExc` models the Python
exceptions that can escape. -/

inductive PyExc where
  | attributeError : PyExc
  | valueError : PyExc
deriving DecidableEq, Repr

/-- The Source Processor collaborator, reduced to the one operation
`FileChecker.report` uses during construction: `line_for`. -/
structure Processor where
  line_for : Int → String

/-- The `IOError` raised by `processor.FileProcessor(...)` for an
unreadable file: its type name and message, as formatted by
`_make_processor` into `'{0}: {1}'.format(exc_type.__name__, exception)`. -/
structure IOErrorInfo where
  exc_type_name : String
  message : String

/-- Python `text.split(' ', 1)` unpacked into two names: `none` models
the `ValueError` raised when `text` contains no space. -/
def splitOnceSpace (text : String) : Option (String × String) :=
  match text.data.span (fun c => decide (c ≠ ' ')) with
  | (_, []) => none
  | (before, _ :: after) => some (String.mk before, String.mk after)

/-- `FileChecker.report` (checker.py lines 351-359), evaluated against
the current attribute state of the instance.  `procAttr = none` models
both a missing `processor` attribute and `processor = None`; in either
Python state the access `self.processor.line_for` raises
`AttributeError`. -/
def fcReport (procAttr : Option Processor) (results : List CheckResult)
    (error_code : Option String) (line_number column : Int) (text : String) :
    Except PyExc (List CheckResult) :=
  match (match error_code with
         | some c => some (c, text)
         | none => splitOnceSpace text) with
  | none => Except.error PyExc.valueError
  | some (code, text1) =>
    match procAttr with
    | none => Except.error PyExc.attributeError
    | some p =>
      Except.ok (results ++ [⟨code, line_number, column, text1, p.line_for line_number⟩])

/-- `FileChecker._make_processor` (checker.py lines 335-349).  The
argument is the outcome of `processor.FileProcessor(self.filename,
...)`.  On `IOError` the handler formats the message and calls
`self.report('E902', 0, 0, message)` — at a point where the instance
has no `processor` attribute, so the call is made with `procAttr =
none`.  Returns the new `processor` attribute value and the results
list, or the escaping exception. -/
def make_processor (openFile : Except IOErrorInfo Processor)
    (results : List CheckResult) :
    Except PyExc (Option Processor × List CheckResult) :=
  match openFile with
  | Except.ok p => Except.ok (some p, results)
  | Except.error e =>
    let message := e.exc_type_name ++ ": " ++ e.message
    match fcReport none results (some "E902") 0 0 message with
    | Except.error exc => Except.error exc
    | Except.ok results1 => Except.ok (none, results1)

/-- The state of a fully constructed `FileChecker`. -/
structure FileCheckerState where
  filename : String
  results : List CheckResult
  processor : Option Processor

/-- `FileChecker.__init__` (checker.py lines 319-333): sets
`self.results = []`, then `self.processor = self._make_processor()`.
An exception raised inside `_make_processor` escapes the constructor. -/
def mkFileChecker (filename : String)
    (openFile : Except IOErrorInfo Processor) :
    Except PyExc FileCheckerState :=
  match make_processor openFile [] with
  | Except.error exc => Except.error exc
  | Except.ok (procAttr, results) => Except.ok ⟨filename, results, procAttr⟩

/-! ### Manager._job_count (checker.py lines 94-143)

The environment probes (`multiprocessing` import, `utils.is_windows()`,
`utils.is_using_stdin(...)`, `options.diff`, `options.jobs`,
`multiprocessing.cpu_count()`) are external inputs gathered into
`JobsEnv`; `cpu_count = none` models `cpu_count()` raising
`NotImplementedError`. -/

structure JobsEnv where
  multiprocessing_available : Bool
  is_windows : Bool
  is_using_stdin : Bool
  option_diff : Bool
  option_jobs : String
  cpu_count : Option Nat
deriving DecidableEq, Repr

/-- Python `str.isdigit` restricted to its ASCII behaviour: true iff the
string is non-empty and every character is an ASCII decimal digit (all
job-count strings are ASCII). -/
def pyIsdigit (s : String) : Bool :=
  !s.data.isEmpty && s.data.all Char.isDigit

/-- Python `int(jobs)` for a string of ASCII decimal digits. -/
def strToNat (s : String) : Nat :=
  s.data.foldl (fun acc c => acc * 10 + (c.toNat - 48)) 0

/-- `Manager._job_count`: returns the worker count, 0 meaning serial. -/
def job_count (env : JobsEnv) : Nat :=
  if !env.multiprocessing_available then 0
  else if env.is_windows then 0
  else if env.is_using_stdin then 0
  else if env.option_diff then 0
  else if env.option_jobs ≠ "auto" ∧ pyIsdigit env.option_jobs = false then 0
  else if env.option_jobs = "auto" then
    match env.cpu_count with
    | some n => n
    | none => 0
  else strToNat env.option_jobs

/-! ### find_offset (checker.py lines 525-533)

`offset` is either already a `(line, column)` tuple, returned
unchanged, or an integer character offset resolved through the logical
line mapping, a list of `(token_offset, (line, column))` pairs.  The
Python loop walks the mapping and breaks at the first entry whose
`token_offset` is ≥ the target; when no entry satisfies it the loop
variable keeps the last entry.  On an empty mapping Python would raise
(the loop variables are unbound); `none` models that. -/

inductive PyOffset where
  | pos : Int → Int → PyOffset
  | idx : Int → PyOffset
deriving DecidableEq, Repr

def loopSelect (offset : Int) : List (Int × Int × Int) → Option (Int × Int × Int)
  | [] => none
  | [e] => some e
  | e :: e2 :: rest =>
    if offset ≤ e.1 then some e else loopSelect offset (e2 :: rest)

def find_offset (offset : PyOffset) (mapping : List (Int × Int × Int)) :
    Option (Int × Int) :=
  match offset with
  | PyOffset.pos l c => some (l, c)
  | PyOffset.idx o =>
    match loopSelect o mapping with
    | none => none
    | some (token_offset, line, column) => some (line, column + o - token_offset)

/-! ### StyleGuide.is_in_diff (style_guide.py lines 198-232)

The parsed diff is a mapping from filename to a set of line numbers,
modelled as an association list (`dict` keys are unique; `get` takes the
entry for the key).  Python falsiness of `None` and of an empty set both
collapse to the `none`/`[]` tests below. -/

def parsedDiffGet (parsed_diff : List (String × List Int)) (filename : String) :
    Option (List Int) :=
  match parsed_diff.find? (fun p => p.1 == filename) with
  | some p => some p.2
  | none => none

def is_in_diff (parsed_diff : List (String × List Int)) (error : Error) : Bool :=
  if parsed_diff.isEmpty then true
  else
    match parsedDiffGet parsed_diff error.filename with
    | none => false
    | some line_numbers =>
      if line_numbers.isEmpty then false
      else line_numbers.contains error.line_number

/-! ### The decision engine (style_guide.py lines 18-165)

Python has two enums `Selected` and `Ignored`, each with members
`Explicitly` and `Implicitly`; `is_user_selected`/`is_user_ignored`
return a member of either enum and `should_report_error` compares with
`is`.  The four possible values are the four constructors of `SelIgn`. -/

inductive SelIgn where
  | selectedExplicitly : SelIgn
  | selectedImplicitly : SelIgn
  | ignoredExplicitly : SelIgn
  | ignoredImplicitly : SelIgn
deriving DecidableEq, Repr

inductive Decision where
  | ignoredDecision : Decision
  | selectedDecision : Decision
deriving DecidableEq, Repr

/-- Python `code.startswith(tuple_of_prefixes)`: true iff `code` starts
with any of them. -/
def startswithAny (code : String) (prefixes : List String) : Bool :=
  prefixes.any (fun p => pyStartsWith code p)

/-- `StyleGuide.is_user_selected` (style_guide.py lines 82-101). -/
def is_user_selected (selected : List String) (code : String) : SelIgn :=
  if selected.isEmpty then SelIgn.selectedImplicitly
  else if startswithAny code selected then SelIgn.selectedExplicitly
  else SelIgn.ignoredImplicitly

/-- `StyleGuide.is_user_ignored` (style_guide.py lines 103-119). -/
def is_user_ignored (ignored : List String) (code : String) : SelIgn :=
  if !ignored.isEmpty && startswithAny code ignored then SelIgn.ignoredExplicitly
  else SelIgn.selectedImplicitly

/-- `StyleGuide._decision_for` (style_guide.py lines 121-129): take the
lexicographically smallest matching selected prefix and the
lexicographically smallest matching ignored prefix (Python
`sorted(...)[0]`); Selected iff the selected prefix starts with the
ignored prefix.  `none` models the `IndexError` Python would raise when
either match list is empty (unreachable from `should_report_error`). -/
def decision_for (selected ignored : List String) (code : String) :
    Option Decision :=
  match (insSortBy strLtB (selected.filter (fun s => pyStartsWith code s))).head?,
        (insSortBy strLtB (ignored.filter (fun i => pyStartsWith code i))).head? with
  | some s, some i =>
    some (if pyStartsWith s i then Decision.selectedDecision else Decision.ignoredDecision)
  | _, _ => none

/-- `StyleGuide.should_report_error` (style_guide.py lines 131-165),
without the per-code memo cache (the cache stores exactly the value
computed here, so it does not change the result). -/
def should_report_error (selected_list ignored_list : List String)
    (code : String) : Option Decision :=
  let selected := is_user_selected selected_list code
  let ignored := is_user_ignored ignored_list code
  if (selected = SelIgn.selectedExplicitly ∨ selected = SelIgn.selectedImplicitly) ∧
      ignored = SelIgn.selectedImplicitly then
    some Decision.selectedDecision
  else if selected = SelIgn.selectedExplicitly ∧ ignored = SelIgn.ignoredExplicitly then
    decision_for selected_list ignored_list code
  else if selected = SelIgn.ignoredImplicitly ∨ ignored = SelIgn.ignoredExplicitly then
    some Decision.ignoredDecision
  else none

/-! ### NOQA_INLINE_REGEXP and is_inline_ignored (style_guide.py 55-196)

The compiled pattern is, verbatim,
  hash space noqa, then an optional colon-space, then an optional
  non-empty greedy run of characters from the class letters/digits/comma
  (the class is written with A-Z and 0-9 but `re.IGNORECASE` extends it
  to lower-case letters), anchored by a dollar.
`re.search` scans start positions left to right and succeeds at the
first position where the remainder matches through the anchor; the
dollar matches at end of string or just before a final newline.  The
pattern is deterministic for a fixed start position: the optional
colon-space, when literally present, must be consumed (skipping it
leaves a colon which neither the class run nor the anchor accepts), and
only the maximal class run can reach the anchor (a shorter run leaves a
class character, which the anchor rejects).  `matchAt` implements the
match at one position, `noqaSearch` the left-to-right scan; the result
distinguishes no match, a match with no codes group, and a match with
the codes group text. -/

def classChar (c : Char) : Bool :=
  decide ((65 ≤ c.toNat ∧ c.toNat ≤ 90) ∨ (97 ≤ c.toNat ∧ c.toNat ≤ 122) ∨
    (48 ≤ c.toNat ∧ c.toNat ≤ 57) ∨ c = ',')

/-- Maximal run of class characters and the remainder. -/
def spanClass : List Char → List Char × List Char
  | [] => ([], [])
  | c :: cs =>
    if classChar c then
      let p := spanClass cs
      (c :: p.1, p.2)
    else ([], c :: cs)

/-- The optional literal colon-space after `noqa`. -/
def stripColonSpace (l : List Char) : List Char :=
  match l with
  | x :: y :: r => if x = ':' ∧ y = ' ' then r else x :: y :: r
  | l => l

/-- Python `$` (no MULTILINE): end of string, or just before a final
newline. -/
def dollarOk (l : List Char) : Bool :=
  match l with
  | [] => true
  | [c] => decide (c = '\n')
  | _ => false

/-- The part of the pattern after the literal `# noqa`. -/
def noqaTail (rest : List Char) : Option (Option String) :=
  let rest1 := stripColonSpace rest
  let p := spanClass rest1
  if dollarOk p.2 then
    some (if p.1.isEmpty then none else some (String.mk p.1))
  else none

/-- Match of the full pattern starting at the head of the list. -/
def matchAt (l : List Char) : Option (Option String) :=
  match l with
  | c1 :: c2 :: n :: o :: q :: a :: rest =>
    if c1 = '#' ∧ c2 = ' ' ∧ (n = 'n' ∨ n = 'N') ∧ (o = 'o' ∨ o = 'O') ∧
        (q = 'q' ∨ q = 'Q') ∧ (a = 'a' ∨ a = 'A') then
      noqaTail rest
    else none
  | _ => none

/-- `re.search`: the leftmost position at which the pattern matches. -/
def noqaSearch : List Char → Option (Option String)
  | [] => none
  | c :: cs =>
    match matchAt (c :: cs) with
    | some r => some r
    | none => noqaSearch cs

def splitComma (acc : List Char) : List Char → List (List Char)
  | [] => [acc.reverse]
  | c :: cs =>
    if c = ',' then acc.reverse :: splitComma [] cs
    else splitComma (c :: acc) cs

/-- Modelled from the spec: `flake8.utils.parse_comma_separated_list` is
not under src/ (only style_guide.py calls it); the spec says the noqa
comment carries "a comma-separated list of codes".  Splits on commas
and drops empty entries. -/
def parse_comma_separated_list (value : String) : List String :=
  ((splitComma [] value.data).filter (fun p => !p.isEmpty)).map String.mk

/-- `StyleGuide.is_inline_ignored` (style_guide.py lines 167-196).
`getline` stands for `linecache.getline`, consulted only when the error
carries no physical line. -/
def is_inline_ignored (disable_noqa : Bool) (getline : String → Int → String)
    (error : Error) : Bool :=
  if disable_noqa then false
  else
    let physical_line :=
      match error.physical_line with
      | some l => l
      | none => getline error.filename error.line_number
    match noqaSearch physical_line.data with
    | none => false
    | some none => true
    | some (some codes_str) =>
      let codes := parse_comma_separated_list codes_str
      codes.any (fun c => c == error.code) ||
        codes.any (fun c => pyStartsWith error.code c)

/-! ### FileChecker.run_ast_checks (checker.py lines 367-396)

`build_ast` is the outcome of `self.processor.build_ast()`; a failure
carries the exception type name, `args[0]` (the primary message) and,
when `len(args) > 1`, the tuple `args[1]`.  For a real `SyntaxError`
that tuple is `(filename, lineno, offset, text)` and the code slices
out elements 1 and 2; the model keeps the tuple as a list of integers
(the elements the slice discards are never inspected).  On failure,
exactly one `E999` diagnostic is recorded through `self.report` and the
method returns before touching `self.checks.ast_plugins`.  `none`
models an `IndexError` from `offset[0]`/`offset[1]` on a malformed
tuple. -/

structure AstFailure where
  exc_type_name : String
  msg : String
  arg_pos : Option (List Int)
deriving DecidableEq, Repr

def run_ast_checks {α : Type} (line_for : Int → String)
    (build_ast : Except AstFailure α)
    (ast_plugins : List (α → List (Int × Int × String))) :
    Option (List CheckResult) :=
  match build_ast with
  | Except.error e =>
    let offset : List Int :=
      match e.arg_pos with
      | some t => if 2 < t.length then (t.drop 1).take 2 else t
      | none => [1, 0]
    match offset.get? 0, offset.get? 1 with
    | some l, some c =>
      some [⟨"E999", l, c, e.exc_type_name ++ ": " ++ e.msg, line_for l⟩]
    | _, _ => none
  | Except.ok tree =>
    ast_plugins.foldl
      (fun macc plugin =>
        (plugin tree).foldl
          (fun m2 r =>
            match m2 with
            | none => none
            | some acc =>
              match splitOnceSpace r.2.2 with
              | none => none
              | some (code, text1) =>
                some (acc ++ [⟨code, r.1, r.2.1, text1, line_for r.1⟩]))
          macc)
      (some [])

/-! ## Claim theorems -/

/-- Claim C1: the claim states that the serial report path forwards each
checker's diagnostics sorted by (line_number, column_number), so that
the reported order is non-decreasing in that pair.  The code sorts by
`(tup[2], tup[3])` — the (column, text) pair — so a checker whose raw
results sit at (line 2, column 0) and (line 1, column 5) is forwarded
with line 2 first: the forwarded order is not non-decreasing in
(line_number, column_number).  This contradicts `Manager.report`'s own
docstring ("reports the errors sorted by line number") and the parallel
twin `_report_after_parallel`, which sorts by `(tup[1], tup[2])`. -/
theorem C1_serial_report_not_sorted_by_line_col :
    report_after_serial
        [⟨"f.py", [⟨"E1", 2, 0, "a", "x"⟩, ⟨"E2", 1, 5, "b", "y"⟩]⟩] =
      [⟨"E1", "f.py", 2, 0, "a", some "x"⟩, ⟨"E2", "f.py", 1, 5, "b", some "y"⟩] ∧
    sortedByLineCol
        (report_after_serial
          [⟨"f.py", [⟨"E1", 2, 0, "a", "x"⟩, ⟨"E2", 1, 5, "b", "y"⟩]⟩]) = false :=
  ⟨by decide, by decide⟩

/-- Claim C2: the claim states that the serial and parallel pipelines
yield the identical ordered diagnostic list.  On the same single
checker, the parallel report path (sorting by `(tup[1], tup[2])` =
(line_number, column)) forwards line 1 before line 2, while the serial
path (sorting by `(tup[2], tup[3])` = (column, text)) forwards line 2
before line 1: the two ordered outputs differ. -/
theorem C2_serial_parallel_outputs_differ :
    report_after_parallel
        [⟨"f.py", [⟨"E1", 2, 0, "a", "x"⟩, ⟨"E2", 1, 5, "b", "y"⟩]⟩]
        [("f.py", [⟨"E1", 2, 0, "a", "x"⟩, ⟨"E2", 1, 5, "b", "y"⟩])] =
      [⟨"E2", "f.py", 1, 5, "b", some "y"⟩, ⟨"E1", "f.py", 2, 0, "a", some "x"⟩] ∧
    report_after_serial
        [⟨"f.py", [⟨"E1", 2, 0, "a", "x"⟩, ⟨"E2", 1, 5, "b", "y"⟩]⟩] ≠
      report_after_parallel
        [⟨"f.py", [⟨"E1", 2, 0, "a", "x"⟩, ⟨"E2", 1, 5, "b", "y"⟩]⟩]
        [("f.py", [⟨"E1", 2, 0, "a", "x"⟩, ⟨"E2", 1, 5, "b", "y"⟩])] :=
  ⟨by decide, by decide⟩

/-- Claim C3: the claim states that `worker_count - 1` workers are
spawned, each pushes exactly one sentinel, and the reporter concludes
collection exactly when it has seen as many sentinels as there are
active workers.  With `jobs = 2` the code spawns `numWorkers 2 = 1`
worker, whose full queue trace carries exactly one sentinel — but
`_results` breaks only at `seen_done >= self.jobs = 2` sentinels, so on
the complete trace the loop exhausts the queue without ever reaching
its break (the real blocking `Queue.get` never returns): collection
never concludes. -/
theorem C3_reporter_never_concludes :
    numWorkers 2 = 1 ∧
    countDones (workerTrace [⟨"g.py", [⟨"E501", 1, 79, "line too long", "src"⟩]⟩]) = 1 ∧
    resultsLoop 2 0
        (workerTrace [⟨"g.py", [⟨"E501", 1, 79, "line too long", "src"⟩]⟩]) =
      ([("g.py", [⟨"E501", 1, 79, "line too long", "src"⟩])], false) :=
  ⟨rfl, rfl, by decide⟩

/-- Claim C4: the claim states that constructing a Check Driver for an
unreadable file records exactly one E902 diagnostic and does not raise.
In the code, `_make_processor`'s `IOError` handler calls
`self.report('E902', 0, 0, message)`, and `FileChecker.report`
dereferences `self.processor` — an attribute that is only assigned once
`_make_processor` returns — so the constructor raises `AttributeError`
for every unreadable file and no diagnostic is recorded. -/
theorem C4_unreadable_file_construction_raises :
    ∀ (filename : String) (e : IOErrorInfo),
      mkFileChecker filename (Except.error e) = Except.error PyExc.attributeError := by
  intro filename e
  rfl

/-- Helper for claim C10: when every boundary offset in the mapping is
below the target, the Python loop falls off the end with the loop
variables bound to the last entry. -/
theorem loopSelect_last : ∀ (o : Int) (mapping : List (Int × Int × Int))
    (last : Int × Int × Int), mapping.getLast? = some last →
    (∀ e ∈ mapping, e.1 < o) → loopSelect o mapping = some last := by
  intro o mapping
  induction mapping with
  | nil => intro last h; simp at h
  | cons e tail ih =>
    intro last hlast hall
    cases tail with
    | nil =>
      simp only [List.getLast?_singleton] at hlast
      simp only [loopSelect]
      rw [hlast]
    | cons e2 rest =>
      have he : e.1 < o := hall e (List.mem_cons_self e _)
      simp only [loopSelect]
      rw [if_neg (by omega)]
      apply ih last
      · rw [← hlast]
        exact (List.getLast?_cons_cons).symm
      · intro x hx
        exact hall x (List.mem_cons_of_mem e hx)

/-- Claim C10: an offset that is already a (line, column) tuple is
returned unchanged; an integer offset strictly greater than every
boundary offset of a non-empty mapping resolves against the last entry,
at (last line, last column + (offset - last boundary offset)). -/
theorem C10_find_offset_overflow_uses_last_entry :
    (∀ (l c : Int) (mapping : List (Int × Int × Int)),
      find_offset (PyOffset.pos l c) mapping = some (l, c)) ∧
    (∀ (o : Int) (mapping : List (Int × Int × Int)) (last : Int × Int × Int),
      mapping.getLast? = some last → (∀ e ∈ mapping, e.1 < o) →
      find_offset (PyOffset.idx o) mapping = some (last.2.1, last.2.2 + o - last.1)) := by
  constructor
  · intro l c mapping
    rfl
  · intro o mapping last hlast hall
    simp only [find_offset]
    rw [loopSelect_last o mapping last hlast hall]

/-- Witness for claim C10 at a concrete mapping with two entries, both
boundary offsets below the target offset 9. -/
theorem C10_find_offset_overflow_witness :
    find_offset (PyOffset.idx 9) [(0, 1, 0), (5, 2, 4)] = some (2, 8) := by
  have h := C10_find_offset_overflow_uses_last_entry.2 9 [(0, 1, 0), (5, 2, 4)]
    (5, 2, 4) (by decide) (by decide)
  simpa using h

/-- Claim C7: `is_in_diff` is true unconditionally on an empty
diff-range table; with a table it is false when the filename has no
entry or an empty line set, and otherwise reduces to membership of the
line number in the file's set; on the table a.py -> 3,4,5 only the
line-4 diagnostic for a.py passes. -/
theorem C7_is_in_diff :
    (∀ e : Error, is_in_diff [] e = true) ∧
    (∀ (table : List (String × List Int)) (e : Error), table ≠ [] →
      parsedDiffGet table e.filename = none → is_in_diff table e = false) ∧
    (∀ (table : List (String × List Int)) (e : Error),
      parsedDiffGet table e.filename = some [] → is_in_diff table e = false) ∧
    (∀ (table : List (String × List Int)) (e : Error) (lines : List Int),
      parsedDiffGet table e.filename = some lines → lines ≠ [] →
      is_in_diff table e = lines.contains e.line_number) ∧
    is_in_diff [("a.py", [3, 4, 5])] ⟨"E1", "a.py", 4, 0, "t", none⟩ = true ∧
    is_in_diff [("a.py", [3, 4, 5])] ⟨"E1", "a.py", 2, 0, "t", none⟩ = false ∧
    is_in_diff [("a.py", [3, 4, 5])] ⟨"E1", "b.py", 1, 0, "t", none⟩ = false := by
  refine ⟨?_, ?_, ?_, ?_, by decide, by decide, by decide⟩
  · intro e
    rfl
  · intro table e htab hget
    have hne : table.isEmpty = false := by
      cases table with
      | nil => exact absurd rfl htab
      | cons a t => rfl
    simp [is_in_diff, hne, hget]
  · intro table e hget
    have htab : table ≠ [] := by
      intro hnil
      subst hnil
      simp [parsedDiffGet] at hget
    have hne : table.isEmpty = false := by
      cases table with
      | nil => exact absurd rfl htab
      | cons a t => rfl
    simp [is_in_diff, hne, hget]
  · intro table e lines hget hlines
    have htab : table ≠ [] := by
      intro hnil
      subst hnil
      simp [parsedDiffGet] at hget
    have hne : table.isEmpty = false := by
      cases table with
      | nil => exact absurd rfl htab
      | cons a t => rfl
    have hlne : lines.isEmpty = false := by
      cases lines with
      | nil => exact absurd rfl hlines
      | cons a t => rfl
    simp [is_in_diff, hne, hget, hlne]

/-- Witness for claim C7 at a concrete table and diagnostics. -/
theorem C7_is_in_diff_witness :
    is_in_diff [("a.py", [3, 4, 5])] ⟨"E1", "a.py", 4, 0, "t", none⟩ =
      ([3, 4, 5] : List Int).contains (4 : Int) ∧
    is_in_diff [("a.py", [3, 4, 5])] ⟨"E1", "b.py", 1, 0, "t", none⟩ = false :=
  ⟨C7_is_in_diff.2.2.2.1 [("a.py", [3, 4, 5])] ⟨"E1", "a.py", 4, 0, "t", none⟩
      [3, 4, 5] (by decide) (by decide),
    C7_is_in_diff.2.1 [("a.py", [3, 4, 5])] ⟨"E1", "b.py", 1, 0, "t", none⟩
      (by decide) (by decide)⟩

/-- Claim C8: `_job_count` returns 0 without raising when
multiprocessing is unavailable, on Windows, on stdin input, on a diff
run, or when the job token is neither "auto" nor a digit string; for
"auto" it returns the CPU count or 0 when that cannot be determined;
otherwise the explicit integer, so "0" yields 0 and a serial run. -/
theorem C8_job_count :
    (∀ env : JobsEnv, env.multiprocessing_available = false → job_count env = 0) ∧
    (∀ env : JobsEnv, env.is_windows = true → job_count env = 0) ∧
    (∀ env : JobsEnv, env.is_using_stdin = true → job_count env = 0) ∧
    (∀ env : JobsEnv, env.option_diff = true → job_count env = 0) ∧
    (∀ env : JobsEnv, env.option_jobs ≠ "auto" → pyIsdigit env.option_jobs = false →
      job_count env = 0) ∧
    (∀ env : JobsEnv, env.multiprocessing_available = true → env.is_windows = false →
      env.is_using_stdin = false → env.option_diff = false → env.option_jobs = "auto" →
      job_count env = env.cpu_count.getD 0) ∧
    (∀ env : JobsEnv, env.multiprocessing_available = true → env.is_windows = false →
      env.is_using_stdin = false → env.option_diff = false →
      pyIsdigit env.option_jobs = true → job_count env = strToNat env.option_jobs) ∧
    job_count ⟨true, false, false, false, "banana", some 4⟩ = 0 ∧
    job_count ⟨true, false, false, false, "0", some 4⟩ = 0 := by
  refine ⟨?_, ?_, ?_, ?_, ?_, ?_, ?_, by decide, by decide⟩
  · intro env h
    simp [job_count, h]
  · intro env h
    simp only [job_count, h]
    cases env.multiprocessing_available <;> simp
  · intro env h
    simp only [job_count, h]
    cases env.multiprocessing_available <;> cases env.is_windows <;> simp
  · intro env h
    simp only [job_count, h]
    cases env.multiprocessing_available <;> cases env.is_windows <;>
      cases env.is_using_stdin <;> simp
  · intro env hja hjd
    simp only [job_count]
    cases env.multiprocessing_available <;> cases env.is_windows <;>
      cases env.is_using_stdin <;> cases env.option_diff <;>
      simp [hja, hjd]
  · intro env h1 h2 h3 h4 h5
    simp [job_count, h1, h2, h3, h4, h5]
    cases env.cpu_count <;> simp [Option.getD]
  · intro env h1 h2 h3 h4 h5
    have hja : env.option_jobs ≠ "auto" := by
      intro he
      rw [he] at h5
      exact absurd h5 (by decide)
    simp [job_count, h1, h2, h3, h4, h5, hja]

/-- Witness for claim C8 at concrete environments: an invalid token,
an explicit "0", "auto" with and without a CPU count, and an explicit
"4". -/
theorem C8_job_count_witness :
    job_count ⟨true, false, false, false, "banana", some 4⟩ = 0 ∧
    job_count ⟨true, false, false, false, "auto", some 4⟩ =
      (some 4 : Option Nat).getD 0 ∧
    job_count ⟨true, false, false, false, "auto", none⟩ =
      (none : Option Nat).getD 0 ∧
    job_count ⟨true, false, false, false, "4", some 8⟩ = strToNat "4" ∧
    job_count ⟨false, false, false, false, "4", some 8⟩ = 0 :=
  ⟨C8_job_count.2.2.2.2.1 ⟨true, false, false, false, "banana", some 4⟩
      (by decide) (by decide),
    C8_job_count.2.2.2.2.2.1 ⟨true, false, false, false, "auto", some 4⟩
      rfl rfl rfl rfl rfl,
    C8_job_count.2.2.2.2.2.1 ⟨true, false, false, false, "auto", none⟩
      rfl rfl rfl rfl rfl,
    C8_job_count.2.2.2.2.2.2.1 ⟨true, false, false, false, "4", some 8⟩
      rfl rfl rfl rfl (by decide),
    C8_job_count.1 ⟨false, false, false, false, "4", some 8⟩ rfl⟩

/-- Claim C5: when a code is both explicitly selected and explicitly
ignored, `should_report_error` delegates to `_decision_for`, which
takes the lexicographically smallest matching selected prefix `s` and
the lexicographically smallest matching ignored prefix `i` and returns
Selected iff `s` starts with `i`; with select E1 and ignore E, code
E123 is Selected and code E9 is Ignored.  Smallestness of `s` and `i`
is stated abstractly: a member of the match list that no other member
is strictly below in the Python string order. -/
theorem C5_tie_break_most_specific_wins :
    (∀ (sel ign : List String) (code s i : String),
      is_user_selected sel code = SelIgn.selectedExplicitly →
      is_user_ignored ign code = SelIgn.ignoredExplicitly →
      s ∈ sel.filter (fun p => pyStartsWith code p) →
      (∀ x ∈ sel.filter (fun p => pyStartsWith code p), strLtB x s = false) →
      i ∈ ign.filter (fun p => pyStartsWith code p) →
      (∀ x ∈ ign.filter (fun p => pyStartsWith code p), strLtB x i = false) →
      should_report_error sel ign code =
        some (if pyStartsWith s i then Decision.selectedDecision
              else Decision.ignoredDecision)) ∧
    should_report_error ["E1"] ["E"] "E123" = some Decision.selectedDecision ∧
    should_report_error ["E1"] ["E"] "E9" = some Decision.ignoredDecision := by
  refine ⟨?_, by decide, by decide⟩
  intro sel ign code s i hsel hign hsmem hsmin himem himin
  have hs := insSortStr_head_eq_min _ s hsmem hsmin
  have hi := insSortStr_head_eq_min _ i himem himin
  simp only [should_report_error, hsel, hign]
  rw [if_neg (by simp), if_pos (by simp)]
  simp only [decision_for, hs, hi]

/-- Witness for claim C5: select = E1, ignore = E, code = E123; the
smallest (only) matching prefixes are E1 and E, and E1 starts with E. -/
theorem C5_tie_break_witness :
    should_report_error ["E1"] ["E"] "E123" =
      some (if pyStartsWith "E1" "E" then Decision.selectedDecision
            else Decision.ignoredDecision) :=
  C5_tie_break_most_specific_wins.1 ["E1"] ["E"] "E123" "E1" "E"
    (by decide) (by decide) (by decide) (by decide) (by decide) (by decide)

/-- Claim C9: when building the syntax tree fails, `run_ast_checks`
records exactly one E999 diagnostic — at (1, 0) when the exception
carries no position tuple, and at the line/column carried by the tuple
otherwise (elements 1 and 2 of a tuple longer than two, the tuple
itself when it is a pair) — whose text is the exception type name and
primary message, and no syntax-tree plugin is invoked (the result is
the singleton for every plugin list). -/
theorem C9_ast_failure_single_E999 :
    ∀ {α : Type} (line_for : Int → String) (e : AstFailure)
      (ast_plugins : List (α → List (Int × Int × String))),
      (e.arg_pos = none →
        run_ast_checks line_for (Except.error e) ast_plugins =
          some [⟨"E999", 1, 0, e.exc_type_name ++ ": " ++ e.msg, line_for 1⟩]) ∧
      (∀ l c : Int, e.arg_pos = some [l, c] →
        run_ast_checks line_for (Except.error e) ast_plugins =
          some [⟨"E999", l, c, e.exc_type_name ++ ": " ++ e.msg, line_for l⟩]) ∧
      (∀ (f l c : Int) (rest : List Int), e.arg_pos = some (f :: l :: c :: rest) →
        run_ast_checks line_for (Except.error e) ast_plugins =
          some [⟨"E999", l, c, e.exc_type_name ++ ": " ++ e.msg, line_for l⟩]) := by
  intro α line_for e ast_plugins
  refine ⟨?_, ?_, ?_⟩
  · intro h
    simp [run_ast_checks, h]
  · intro l c h
    simp [run_ast_checks, h]
  · intro f l c rest h
    have hlen : 2 < (f :: l :: c :: rest).length := by
      simp only [List.length_cons]
      omega
    simp [run_ast_checks, h, hlen]

/-- Witness for claim C9: a SyntaxError whose second argument is the
four-element tuple (filename, lineno, offset, text) resolves to
position (3, 7), produces the single E999 diagnostic and ignores the
supplied syntax-tree plugin. -/
theorem C9_ast_failure_witness :
    run_ast_checks (fun _ => "def f(:")
        (Except.error ⟨"SyntaxError", "invalid syntax", some [0, 3, 7, 0]⟩)
        [fun (_ : Unit) => [((5 : Int), (5 : Int), "X175 bad")]] =
      some [⟨"E999", 3, 7, "SyntaxError: invalid syntax", "def f(:"⟩] :=
  (C9_ast_failure_single_E999 (fun _ => "def f(:")
      ⟨"SyntaxError", "invalid syntax", some [0, 3, 7, 0]⟩
      [fun (_ : Unit) => [((5 : Int), (5 : Int), "X175 bad")]]).2.2 0 3 7 [0] rfl

/-! ### Helper lemmas for claim C6 -/

theorem spanClass_append : ∀ l : List Char, (spanClass l).1 ++ (spanClass l).2 = l := by
  intro l
  induction l with
  | nil => rfl
  | cons c cs ih =>
    simp only [spanClass]
    by_cases h : classChar c = true
    · simp only [h, if_pos]
      simp [ih]
    · rw [if_neg h]
      rfl

theorem spanClass_all : ∀ (l : List Char) (c : Char),
    c ∈ (spanClass l).1 → classChar c = true := by
  intro l
  induction l with
  | nil => intro c h; simp [spanClass] at h
  | cons x xs ih =>
    intro c h
    simp only [spanClass] at h
    by_cases hx : classChar x = true
    · simp only [hx, if_pos] at h
      rcases List.mem_cons.mp h with hc | hc
      · rw [hc]; exact hx
      · exact ih c hc
    · rw [if_neg hx] at h
      simp at h

theorem stripColonSpace_decompose : ∀ l : List Char,
    ∃ pre, l = pre ++ stripColonSpace l ∧ ∀ c ∈ pre, c = ':' ∨ c = ' ' := by
  intro l
  match l with
  | [] => exact ⟨[], rfl, by simp⟩
  | [x] => exact ⟨[], rfl, by simp⟩
  | x :: y :: r =>
    by_cases h : x = ':' ∧ y = ' '
    · refine ⟨[':', ' '], ?_, ?_⟩
      · simp only [stripColonSpace, if_pos h]
        rw [h.1, h.2]
        rfl
      · intro c hc
        rcases List.mem_cons.mp hc with hc | hc
        · exact Or.inl hc
        · rcases List.mem_cons.mp hc with hc | hc
          · exact Or.inr hc
          · simp at hc
    · refine ⟨[], ?_, by simp⟩
      simp only [stripColonSpace, if_neg h]
      rfl

theorem dollarOk_cases : ∀ l : List Char, dollarOk l = true → l = [] ∨ l = ['\n'] := by
  intro l h
  match l with
  | [] => exact Or.inl rfl
  | [c] =>
    simp only [dollarOk, decide_eq_true_eq] at h
    rw [h] at *
    exact Or.inr rfl
  | a :: b :: r => simp [dollarOk] at h

theorem noqaTail_some_codes {rest : List Char} {codes : String}
    (h : noqaTail rest = some (some codes)) :
    ∃ pre run rest2, rest = pre ++ run ++ rest2 ∧
      (∀ c ∈ pre, c = ':' ∨ c = ' ') ∧
      (∀ c ∈ run, classChar c = true) ∧ run ≠ [] ∧
      (rest2 = [] ∨ rest2 = ['\n']) := by
  simp only [noqaTail] at h
  by_cases hd : dollarOk (spanClass (stripColonSpace rest)).2 = true
  · rw [if_pos hd] at h
    obtain ⟨pre, hpre, hprechars⟩ := stripColonSpace_decompose rest
    refine ⟨pre, (spanClass (stripColonSpace rest)).1,
      (spanClass (stripColonSpace rest)).2, ?_, hprechars, ?_, ?_, ?_⟩
    · rw [List.append_assoc, spanClass_append]
      exact hpre
    · intro c hc
      exact spanClass_all _ c hc
    · intro hnil
      rw [hnil] at h
      simp at h
    · exact dollarOk_cases _ hd
  · rw [if_neg hd] at h
    exact absurd h (by simp)

theorem matchAt_some {ys : List Char} {r : Option String}
    (h : matchAt ys = some r) :
    ∃ n o q a t, ys = '#' :: ' ' :: n :: o :: q :: a :: t ∧
      (n = 'n' ∨ n = 'N') ∧ (o = 'o' ∨ o = 'O') ∧
      (q = 'q' ∨ q = 'Q') ∧ (a = 'a' ∨ a = 'A') ∧
      noqaTail t = some r := by
  match ys with
  | [] => simp [matchAt] at h
  | [c1] => simp [matchAt] at h
  | [c1, c2] => simp [matchAt] at h
  | [c1, c2, c3] => simp [matchAt] at h
  | [c1, c2, c3, c4] => simp [matchAt] at h
  | [c1, c2, c3, c4, c5] => simp [matchAt] at h
  | c1 :: c2 :: n :: o :: q :: a :: t =>
    simp only [matchAt] at h
    by_cases hc : c1 = '#' ∧ c2 = ' ' ∧ (n = 'n' ∨ n = 'N') ∧ (o = 'o' ∨ o = 'O') ∧
        (q = 'q' ∨ q = 'Q') ∧ (a = 'a' ∨ a = 'A')
    · rw [if_pos hc] at h
      exact ⟨n, o, q, a, t, by rw [hc.1, hc.2.1], hc.2.2.1, hc.2.2.2.1,
        hc.2.2.2.2.1, hc.2.2.2.2.2, h⟩
    · rw [if_neg hc] at h
      exact absurd h (by simp)

theorem noqaSearch_sound : ∀ (l : List Char) (r : Option String),
    noqaSearch l = some r → ∃ ys, ys <:+ l ∧ matchAt ys = some r := by
  intro l
  induction l with
  | nil => intro r h; simp [noqaSearch] at h
  | cons c cs ih =>
    intro r h
    simp only [noqaSearch] at h
    cases hm : matchAt (c :: cs) with
    | some r0 =>
      rw [hm] at h
      have : r0 = r := by injection h
      subst this
      exact ⟨c :: cs, List.suffix_refl _, hm⟩
    | none =>
      rw [hm] at h
      obtain ⟨ys, hsfx, hys⟩ := ih r h
      exact ⟨ys, hsfx.trans (List.suffix_cons c cs), hys⟩

theorem noqaSearch_finds : ∀ (p t : List Char),
    matchAt t ≠ none → noqaSearch (p ++ t) ≠ none := by
  intro p
  induction p with
  | nil =>
    intro t hm
    cases t with
    | nil => exact absurd rfl hm
    | cons c cs =>
      simp only [List.nil_append, noqaSearch]
      cases h : matchAt (c :: cs) with
      | some r => simp
      | none => exact absurd h hm
  | cons x p ih =>
    intro t hm
    simp only [List.cons_append, noqaSearch]
    cases h : matchAt (x :: (p ++ t)) with
    | some r => simp
    | none => exact ih t hm

theorem suffix_in_append : ∀ (w l t : List Char),
    t <:+ w ++ l → t.length ≤ l.length → t <:+ l := by
  intro w
  induction w with
  | nil =>
    intro l t h _
    simpa using h
  | cons a w ih =>
    intro l t h hlen
    obtain ⟨u, hu⟩ := h
    cases u with
    | nil =>
      simp only [List.nil_append] at hu
      have hlen2 := congrArg List.length hu
      simp only [List.cons_append, List.length_cons, List.length_append] at hlen2
      omega
    | cons b u2 =>
      simp only [List.cons_append] at hu
      have hu2 : u2 ++ t = w ++ l := by
        injection hu
      exact ih l t ⟨u2, hu2⟩ hlen

/-- Key lemma for claim C6: on any physical line that ends with the six
characters `# noqa`, the regex search succeeds and its codes group is
empty — no earlier match can swallow those six characters, because a
match must extend through the end-of-line anchor and neither the
optional colon-space nor the code-class run accepts a hash or a space. -/
theorem noqaSearch_blanket (p : List Char) :
    noqaSearch (p ++ ['#', ' ', 'n', 'o', 'q', 'a']) = some none := by
  have hm : matchAt ['#', ' ', 'n', 'o', 'q', 'a'] = some none := by decide
  have hne : noqaSearch (p ++ ['#', ' ', 'n', 'o', 'q', 'a']) ≠ none :=
    noqaSearch_finds p _ (by rw [hm]; simp)
  cases h : noqaSearch (p ++ ['#', ' ', 'n', 'o', 'q', 'a']) with
  | none => exact absurd h hne
  | some r =>
    cases r with
    | none => rfl
    | some codes =>
      exfalso
      obtain ⟨ys, hsfx, hys⟩ := noqaSearch_sound _ _ h
      obtain ⟨n, o, q, a, t, hy, hn, ho, hq, ha, ht⟩ := matchAt_some hys
      obtain ⟨pre, run, rest2, htt, hpre, hrun, hrne, hrest2⟩ := noqaTail_some_codes ht
      have hlen6 : (['#', ' ', 'n', 'o', 'q', 'a'] : List Char).length ≤ ys.length := by
        rw [hy]
        simp only [List.length_cons, List.length_nil]
        omega
      have h6 : (['#', ' ', 'n', 'o', 'q', 'a'] : List Char) <:+ ys := by
        obtain ⟨w, hw⟩ := hsfx
        have hbase : (['#', ' ', 'n', 'o', 'q', 'a'] : List Char) <:+
            p ++ ['#', ' ', 'n', 'o', 'q', 'a'] := ⟨p, rfl⟩
        rw [← hw] at hbase
        exact suffix_in_append w ys _ hbase hlen6
      obtain ⟨v, hv⟩ := h6
      have h1 := congrArg List.length hv
      simp only [List.length_append, List.length_cons, List.length_nil] at h1
      have h2 := congrArg List.length hy
      simp only [List.length_cons] at h2
      have h3 := congrArg List.length htt
      simp only [List.length_append] at h3
      have hrunpos : 0 < run.length := List.length_pos.mpr hrne
      have hvpos : 1 ≤ v.length := by omega
      have hdropv : ys.drop v.length = ['#', ' ', 'n', 'o', 'q', 'a'] := by
        rw [← hv]
        exact List.drop_left v _
      have hmem : '#' ∈ ys.drop v.length := by
        rw [hdropv]
        exact List.mem_cons_self _ _
      have hdd : ys.drop v.length = (ys.drop 1).drop (v.length - 1) := by
        rw [List.drop_drop]
        congr 1
        omega
      have hmem1 : '#' ∈ ys.drop 1 := by
        rw [hdd] at hmem
        exact List.drop_subset _ _ hmem
      rw [hy] at hmem1
      simp only [List.drop_succ_cons, List.drop_zero] at hmem1
      rw [htt] at hmem1
      simp only [List.mem_cons, List.mem_append] at hmem1
      rcases hmem1 with h0 | h0 | h0 | h0 | h0 | ((h0 | h0) | h0)
      · exact absurd h0 (by decide)
      · rcases hn with hn | hn <;> rw [hn] at h0 <;> exact absurd h0 (by decide)
      · rcases ho with ho | ho <;> rw [ho] at h0 <;> exact absurd h0 (by decide)
      · rcases hq with hq | hq <;> rw [hq] at h0 <;> exact absurd h0 (by decide)
      · rcases ha with ha | ha <;> rw [ha] at h0 <;> exact absurd h0 (by decide)
      · rcases hpre '#' h0 with hc | hc <;> exact absurd hc (by decide)
      · have := hrun '#' h0
        exact absurd this (by decide)
      · rcases hrest2 with hr2 | hr2
        · rw [hr2] at h0
          simp at h0
        · rw [hr2] at h0
          simp only [List.mem_singleton] at h0
          exact absurd h0 (by decide)

/-- Claim C6: a diagnostic whose physical line ends in a bare `# noqa`
comment is suppressed whatever its code; a noqa comment with a code
list suppresses exactly the diagnostics whose code equals or starts
with one of the listed codes; on a line ending in a noqa comment
listing E501 and W291, code E501 is suppressed and code E302 is not. -/
theorem C6_inline_noqa :
    (∀ (p : List Char) (code filename text : String) (ln col : Int)
        (getline : String → Int → String),
      is_inline_ignored false getline
        ⟨code, filename, ln, col, text,
          some (String.mk (p ++ ['#', ' ', 'n', 'o', 'q', 'a']))⟩ = true) ∧
    (∀ (getline : String → Int → String) (e : Error) (l codes_str : String),
      e.physical_line = some l →
      noqaSearch l.data = some (some codes_str) →
      (is_inline_ignored false getline e = true ↔
        ∃ c ∈ parse_comma_separated_list codes_str,
          c = e.code ∨ pyStartsWith e.code c = true)) ∧
    is_inline_ignored false (fun _ _ => "")
      ⟨"E501", "a.py", 1, 0, "t", some "x = 1  # noqa: E501,W291"⟩ = true ∧
    is_inline_ignored false (fun _ _ => "")
      ⟨"E302", "a.py", 1, 0, "t", some "x = 1  # noqa: E501,W291"⟩ = false := by
  refine ⟨?_, ?_, by decide, by decide⟩
  · intro p code filename text ln col getline
    have hb := noqaSearch_blanket p
    simp [is_inline_ignored, hb]
  · intro getline e l codes_str hpl hsearch
    simp only [is_inline_ignored, hpl]
    rw [hsearch]
    show (((parse_comma_separated_list codes_str).any fun c => c == e.code) ||
        (parse_comma_separated_list codes_str).any fun c => pyStartsWith e.code c) = true ↔ _
    rw [Bool.or_eq_true, List.any_eq_true, List.any_eq_true]
    simp only [beq_iff_eq]
    constructor
    · intro h
      rcases h with ⟨c, hc, he⟩ | ⟨c, hc, he⟩
      · exact ⟨c, hc, Or.inl he⟩
      · exact ⟨c, hc, Or.inr he⟩
    · intro h
      rcases h with ⟨c, hc, he | he⟩
      · exact Or.inl ⟨c, hc, he⟩
      · exact Or.inr ⟨c, hc, he⟩

/-- Witness for claim C6: a line ending in a noqa comment listing only
E501, checked against a diagnostic coded E111. -/
theorem C6_inline_noqa_witness :
    is_inline_ignored false (fun _ _ => "")
        ⟨"E111", "a.py", 1, 0, "t", some "x = 2  # noqa: E501"⟩ = true ↔
      ∃ c ∈ parse_comma_separated_list "E501",
        c = "E111" ∨ pyStartsWith "E111" c = true :=
  C6_inline_noqa.2.1 (fun _ _ => "")
    ⟨"E111", "a.py", 1, 0, "t", some "x = 2  # noqa: E501"⟩
    "x = 2  # noqa: E501" "E501" rfl (by decide)
